import Mathlib

/-!
# Verification of the dayroll printer-discovery engine

Shallow embedding of `src/backend/src/model.rs`, `src/backend/src/discover/linux.rs`
and `src/backend/src/discover/macos.rs`.

Conventions used throughout:
* `u8` confidences are embedded as `Nat`: the source only ever stores the constants
  35, 40, 55, 60, 70, 80, 85, 90 and combines them with `max`, so no wrap-around can occur.
* External enumeration sources (glob results, the udev devnode map, the serial-port
  list, the USB bus device list) are passed in as explicit environment values; the
  source reads them through fallible APIs whose per-call results are part of the
  environment records.
* Rust `HashMap` lookups are embedded as association-list `List.lookup` (the maps are
  built with distinct keys, so first-match lookup agrees with hash-map lookup).
* Rust `Vec::sort_by` / `sort_by_key` are stable sorts; they are embedded as
  `List.insertionSort`, which is stable and sorted, hence extensionally the same
  function (a stable sort under a total preorder is unique).
-/

namespace Dayroll

/-- A single-quote character, used to reproduce the note strings that the Rust
`format!` calls build with quoted keywords. -/
def squote : String := String.mk [Char.ofNat 39]

/-- Predicate `charsOccur needle hay`: does `needle` occur as a contiguous sublist of `hay`?
Embeds Rust `str::contains` (all strings involved are ASCII). -/
def charsOccur (needle : List Char) : List Char → Bool
  | [] => needle.isEmpty
  | c :: rest => List.isPrefixOf needle (c :: rest) || charsOccur needle rest

/-- Rust `hay.contains(pat)` for string patterns. -/
def strContainsSub (hay pat : String) : Bool := charsOccur pat.data hay.data

/-- Rust `str::trim` (whitespace stripped from both ends), on the character list so
that it evaluates by kernel reduction. -/
def trimChars (l : List Char) : List Char :=
  ((l.dropWhile Char.isWhitespace).reverse.dropWhile Char.isWhitespace).reverse

/-- Rust `str::trim`. -/
def strTrim (s : String) : String := String.mk (trimChars s.data)

/-- Rust `str::to_lowercase` (ASCII in all strings involved). -/
def strToLower (s : String) : String := String.mk (s.data.map Char.toLower)

/-- Lexicographic comparison of character lists: the ordering Rust uses on
`String` sort keys (byte order coincides with character order on ASCII). -/
def charsLe : List Char → List Char → Bool
  | [], _ => true
  | _ :: _, [] => false
  | a :: as, b :: bs => if a = b then charsLe as bs else decide (a < b)

/-! ## model.rs -/

/-- From `model.rs` lines 1-5: `enum Transport { UsbLp { path }, Serial { path } }`.
Note that this is the complete set of variants in `model.rs`; there is no
`UsbDevice` variant. -/
inductive Transport where
  | usbLp (path : String)
  | serial (path : String)
deriving DecidableEq

/-- From `model.rs` lines 7-16: `struct Candidate`. -/
structure Candidate where
  transport : Transport
  make_model : Option String
  serial : Option String
  vid : Option String
  pid : Option String
  confidence : Nat
  notes : List String
deriving DecidableEq

/-- From `model.rs` lines 18-25: `Candidate::transport_path`. -/
def Candidate.transport_path (c : Candidate) : Option String :=
  match c.transport with
  | .usbLp path => some path
  | .serial path => some path

/-! ## discover/linux.rs -/

/-- The device environment a Linux discovery pass reads: the glob results for the
three scanned node patterns, and the udev devnode-to-properties map built by
`build_udev_devnode_map` (a pure enumeration of an external service, passed in as
data; properties are an association list standing for the `HashMap`). -/
structure LinuxEnv where
  usb_lp_nodes : List String
  tty_usb_nodes : List String
  tty_acm_nodes : List String
  devmap : List (String × List (String × String))
deriving DecidableEq

/-- From `linux.rs` lines 47-64: `scan_usb_lp_nodes`, one candidate per `/dev/usb/lp*`
glob match, confidence 80. -/
def scan_usb_lp_nodes (env : LinuxEnv) : List Candidate :=
  env.usb_lp_nodes.map fun p =>
    { transport := .usbLp p, make_model := none, serial := none, vid := none, pid := none,
      confidence := 80, notes := ["Found /dev/usb/lp* node (USB printer class)"] }

/-- From `linux.rs` lines 67-86: `scan_serial_nodes`, `/dev/ttyUSB*` matches first, then
`/dev/ttyACM*`, confidence 40, the note recording which pattern matched. -/
def scan_serial_nodes (env : LinuxEnv) : List Candidate :=
  (env.tty_usb_nodes.map fun p =>
    { transport := .serial p, make_model := none, serial := none, vid := none, pid := none,
      confidence := 40, notes := ["Found serial device node (/dev/ttyUSB*)"] }) ++
  (env.tty_acm_nodes.map fun p =>
    { transport := .serial p, make_model := none, serial := none, vid := none, pid := none,
      confidence := 40, notes := ["Found serial device node (/dev/ttyACM*)"] })

/-- Lookup `props.get(k)` on the udev property map. -/
def prop_get (props : List (String × String)) (k : String) : Option String :=
  List.lookup k props

/-- From `linux.rs` lines 101-123: friendly vendor/model resolution inside
`enrich_with_udev`. Sets `make_model` (only if absent) to the trimmed join and
raises confidence to at least 55. -/
def apply_make_model (props : List (String × String)) (c : Candidate) : Candidate :=
  let vendor := (prop_get props "ID_VENDOR_FROM_DATABASE").or (prop_get props "ID_VENDOR")
  let model := (prop_get props "ID_MODEL_FROM_DATABASE").or (prop_get props "ID_MODEL")
  if c.make_model.isNone && (vendor.isSome || model.isSome) then
    let mm := strTrim ((vendor.getD "") ++ " " ++ (model.getD ""))
    if mm.data.isEmpty then c
    else { c with make_model := some mm, confidence := max c.confidence 55 }
  else c

/-- From `linux.rs` lines 125-137: serial / VID / PID fill-in inside `enrich_with_udev`
(each only if not already set). -/
def apply_serial_ids (props : List (String × String)) (c : Candidate) : Candidate :=
  let c := if c.serial.isNone then
      { c with serial := (prop_get props "ID_SERIAL_SHORT").or (prop_get props "ID_SERIAL") }
    else c
  let c := if c.vid.isNone then { c with vid := prop_get props "ID_VENDOR_ID" } else c
  if c.pid.isNone then { c with pid := prop_get props "ID_MODEL_ID" } else c

def iface_note : String := "udev: ID_USB_INTERFACES indicates USB printer class (07)"

/-- From `linux.rs` lines 139-146: the `ID_USB_INTERFACES` printer-class heuristic inside
`enrich_with_udev`: raise confidence to at least 90 and push a note. -/
def apply_interfaces (props : List (String × String)) (c : Candidate) : Candidate :=
  match prop_get props "ID_USB_INTERFACES" with
  | none => c
  | some ifaces =>
    if strContainsSub ifaces ":0701" || strContainsSub ifaces ":0700" ||
        strContainsSub ifaces ":07" then
      { c with confidence := max c.confidence 90, notes := c.notes ++ [iface_note] }
    else c

/-- From `linux.rs` lines 151-154: the fixed keyword list. -/
def printer_keywords : List String :=
  ["epson", "star", "bixolon", "citizen", "sewoo", "zjiang", "xprinter", "pos",
   "receipt", "thermal"]

/-- The note `format!("make/model contains keyword {kw}")` pushes (keyword quoted). -/
def keyword_note (kw : String) : String :=
  "make/model contains keyword " ++ squote ++ kw ++ squote

/-- From `linux.rs` lines 148-161: the keyword confidence boost inside `enrich_with_udev`.
The `for`/`break` loop acts on the first matching keyword only. -/
def apply_keyword (keywords : List String) (c : Candidate) : Candidate :=
  match c.make_model with
  | none => c
  | some mm =>
    match keywords.find? (fun kw => strContainsSub (strToLower mm) kw) with
    | none => c
    | some kw => { c with confidence := max c.confidence 70, notes := c.notes ++ [keyword_note kw] }

/-- From `linux.rs` lines 95-162: the per-candidate body of `enrich_with_udev`.
Candidates without a devnode, or whose devnode has no udev record, are skipped. -/
def enrich_one (devmap : List (String × List (String × String))) (c : Candidate) : Candidate :=
  match c.transport_path with
  | none => c
  | some devnode =>
    match List.lookup devnode devmap with
    | none => c
    | some props =>
      apply_keyword printer_keywords (apply_interfaces props (apply_serial_ids props (apply_make_model props c)))

/-- From `linux.rs` lines 91-165: `enrich_with_udev` mutates every candidate in place;
embedded as a map of the per-candidate body. -/
def enrich_with_udev (devmap : List (String × List (String × String)))
    (cands : List Candidate) : List Candidate :=
  cands.map (enrich_one devmap)

/-- The sort key of `dedup_by_transport_path`:
`c.transport_path().unwrap_or("").to_string()`. -/
def path_key (c : Candidate) : String := (c.transport_path).getD ""

/-- The `sort_by_key` ordering on path keys (Rust `String` ordering is
lexicographic; `charsLe` is the same order on the character lists). -/
def path_le (a b : Candidate) : Prop :=
  charsLe (path_key a).data (path_key b).data = true

instance : DecidableRel path_le := fun a b =>
  inferInstanceAs (Decidable (charsLe (path_key a).data (path_key b).data = true))

/-- The retained-element walk of
`Vec::dedup_by(|a, b| a.transport_path() == b.transport_path())`: `a` is the last
retained element; each following element comparing equal to it is dropped, and the
first one that does not becomes the new retained element. -/
def dedup_go (a : Candidate) : List Candidate → List Candidate
  | [] => []
  | b :: rest =>
    if a.transport_path == b.transport_path then dedup_go a rest
    else b :: dedup_go b rest

/-- `Vec::dedup_by` keeping the first element of every run of
`transport_path`-equal candidates. -/
def dedup_consec : List Candidate → List Candidate
  | [] => []
  | a :: rest => a :: dedup_go a rest

/-- From `linux.rs` lines 209-212: `dedup_by_transport_path` sorts by the path key (a
stable sort, embedded as `insertionSort`, which is stable and sorted, hence
extensionally the Rust `sort_by_key`) and then removes consecutive candidates with
equal `transport_path`. -/
def dedup_by_transport_path (cands : List Candidate) : List Candidate :=
  dedup_consec (cands.insertionSort path_le)

/-- The final `sort_by(|a, b| b.confidence.cmp(&a.confidence))` ordering:
descending by confidence, stable. -/
def conf_desc_le (a b : Candidate) : Prop := b.confidence ≤ a.confidence

instance : DecidableRel conf_desc_le := fun a b =>
  inferInstanceAs (Decidable (b.confidence ≤ a.confidence))

/-- From `linux.rs` lines 12-16: `struct LinuxDiscovery`. -/
structure LinuxDiscovery where
  include_serial : Bool
  use_udev : Bool
deriving DecidableEq

/-- Constructor `LinuxDiscovery::new` (both flags on). -/
def LinuxDiscovery.new : LinuxDiscovery := { include_serial := true, use_udev := true }

/-- The raw candidate list of a pass, in scanner-then-discovery order:
`/dev/usb/lp*` candidates first, then serial candidates when enabled
(`linux.rs` lines 27-33). -/
def linux_raw (self : LinuxDiscovery) (env : LinuxEnv) : List Candidate :=
  scan_usb_lp_nodes env ++ (if self.include_serial then scan_serial_nodes env else [])

/-- From `linux.rs` lines 39-40: the fusion-and-ranking tail of the pass — dedup by
transport path, then the stable sort by confidence descending. -/
def linux_fuse (cands : List Candidate) : List Candidate :=
  (dedup_by_transport_path cands).insertionSort conf_desc_le

/-- From `linux.rs` lines 26-43: `LinuxDiscovery::discover`: scan, optionally enrich,
dedup by transport path, sort by confidence descending. The glob patterns are
constant and valid, so the scanners only fail if glob iteration does, which the
source discards entry-wise; the pass itself is total in the environment. -/
def LinuxDiscovery.discover (self : LinuxDiscovery) (env : LinuxEnv) : List Candidate :=
  let cands := linux_raw self env
  let cands := if self.use_udev then enrich_with_udev env.devmap cands else cands
  linux_fuse cands

/-! ## discover/macos.rs

`macos.rs` line 122 constructs `Transport::UsbDevice { vid, pid, serial }`, a variant
that `model.rs` does not declare (its `Transport` has only the two path variants
above), so the macOS backend cannot type-check against `model.rs` as committed.
The macOS embedding therefore uses the transport type that the `macos.rs` source
text requires, with the extra bus-device variant. -/

namespace Mac

/-- The transport type as used by `macos.rs`: the two `model.rs` variants plus the
`UsbDevice` tuple variant its USB bus scan constructs. -/
inductive Transport where
  | usbLp (path : String)
  | serial (path : String)
  | usbDevice (vid : Nat) (pid : Nat) (serial : Option String)
deriving DecidableEq

/-- The candidate record as built by `macos.rs` (same fields as `model.rs`). -/
structure Candidate where
  transport : Transport
  make_model : Option String
  serial : Option String
  vid : Option String
  pid : Option String
  confidence : Nat
  notes : List String
deriving DecidableEq

/-- Rust `format!("{:04x}", n)`: lowercase hex, left-padded with zeros to width 4. -/
def toHex4 (n : Nat) : String :=
  let s := String.mk (Nat.toDigits 16 n)
  String.mk (List.replicate (4 - s.length) (Char.ofNat 48)) ++ s

/-- Record `serialport::UsbPortInfo`: the USB metadata a serial port may carry. -/
structure UsbPortInfo where
  vid : Nat
  pid : Nat
  serial_number : Option String
  manufacturer : Option String
  product : Option String
deriving DecidableEq

/-- Enum `serialport::SerialPortType`, collapsed to the two cases `macos.rs`
distinguishes (`UsbPort(info)` versus everything else). -/
inductive SerialPortType where
  | usbPort (info : UsbPortInfo)
  | other
deriving DecidableEq

/-- Record `serialport::SerialPortInfo`. -/
structure SerialPortInfo where
  port_name : String
  port_type : SerialPortType
deriving DecidableEq

/-- From `macos.rs` line 80: the keyword list of the macOS serial scan. It omits
`zjiang` and `xprinter` from the Linux list. -/
def mac_keywords : List String :=
  ["epson", "star", "bixolon", "citizen", "sewoo", "pos", "receipt", "thermal"]

/-- From `macos.rs` lines 42-92: the per-port body of `discover_serial_ports`:
baseline confidence 35, then USB metadata enrichment (confidence to at least 60
when a display name resolves, plus the USB-backed note), then the keyword boost. -/
def serial_port_candidate (p : SerialPortInfo) : Candidate :=
  let c : Candidate :=
    { transport := .serial p.port_name, make_model := none, serial := none,
      vid := none, pid := none, confidence := 35,
      notes := ["serialport: " ++ p.port_name] }
  match p.port_type with
  | .other => c
  | .usbPort info =>
    let c := { c with vid := some (toHex4 info.vid), pid := some (toHex4 info.pid),
                      serial := info.serial_number }
    let c :=
      let mm := Dayroll.strTrim ((info.manufacturer.getD "") ++ " " ++ (info.product.getD ""))
      if mm.data.isEmpty then c
      else { c with make_model := some mm, confidence := max c.confidence 60,
                    notes := c.notes ++ ["serialport: USB-backed serial device"] }
    match c.make_model with
    | none => c
    | some mm =>
      match mac_keywords.find? (fun kw => Dayroll.strContainsSub (Dayroll.strToLower mm) kw) with
      | none => c
      | some kw => { c with confidence := max c.confidence 70,
                            notes := c.notes ++ [Dayroll.keyword_note kw] }

/-- From `macos.rs` lines 38-96: `discover_serial_ports` over an already-enumerated port
list (the `available_ports()?` enumeration failure is handled at the caller). -/
def discover_serial_ports (ports : List SerialPortInfo) : List Candidate :=
  ports.map serial_port_candidate

/-- One `rusb` interface descriptor, restricted to the field `macos.rs` reads. -/
structure InterfaceDescriptor where
  class_code : Nat
deriving DecidableEq

/-- One `rusb` interface: its alternate-setting descriptors. -/
structure UsbInterface where
  descriptors : List InterfaceDescriptor
deriving DecidableEq

/-- One `rusb` configuration descriptor: its interfaces. -/
structure ConfigDescriptor where
  interfaces : List UsbInterface
deriving DecidableEq

/-- A `rusb` device descriptor, restricted to the fields `macos.rs` reads. -/
structure DeviceDescriptor where
  vendor_id : Nat
  product_id : Nat
  manufacturer_string_index : Option Nat
  product_string_index : Option Nat
  serial_number_string_index : Option Nat
deriving DecidableEq

/-- An open `rusb` device handle: the bounded-timeout ASCII string-descriptor read,
with read errors and timeouts collapsed to `none` as the source does via `.ok()`. -/
structure UsbHandle where
  read_string_descriptor_ascii : Nat → Option String

/-- One enumerated USB bus device: the results of the fallible `rusb` calls
`macos.rs` makes on it. `device_descriptor()` is the one call whose error the
source propagates with `?`; `open()` failure is collapsed to `none` because both
string readers turn it into `Ok(None)`. -/
structure BusDevice where
  device_descriptor : Except String DeviceDescriptor
  active_config_descriptor : Option ConfigDescriptor
  open? : Option UsbHandle

/-- From `macos.rs` lines 156-171: `device_has_printer_interface`: a config-descriptor
read failure yields `false`; otherwise scan every interface descriptor for class
code 0x07. -/
def device_has_printer_interface (dev : BusDevice) : Bool :=
  match dev.active_config_descriptor with
  | none => false
  | some cfg => cfg.interfaces.any fun i => i.descriptors.any fun s => s.class_code == 0x07

/-- From `macos.rs` lines 174-197: `read_usb_strings`: `None` unless the device opens and
both the manufacturer and product string descriptors read successfully. The source
returns `Result` but every failure path yields `Ok(None)`, hence the `Option`. -/
def read_usb_strings (dev : BusDevice) (desc : DeviceDescriptor) : Option (String × String) :=
  match dev.open? with
  | none => none
  | some h =>
    let mfg := desc.manufacturer_string_index.bind h.read_string_descriptor_ascii
    let prod := desc.product_string_index.bind h.read_string_descriptor_ascii
    match mfg, prod with
    | some a, some b => some (a, b)
    | _, _ => none

/-- From `macos.rs` lines 200-216: `read_usb_serial`, same failure collapsing
(the caller applies `.ok().flatten()`). -/
def read_usb_serial (dev : BusDevice) (desc : DeviceDescriptor) : Option String :=
  match dev.open? with
  | none => none
  | some h => desc.serial_number_string_index.bind h.read_string_descriptor_ascii

/-- From `macos.rs` lines 119-142: the candidate built for one printer-class bus device:
tuple transport, hex vid/pid, class-based confidence 80, then the best-effort
string-descriptor read raising confidence to at least 85 when a non-empty
display name was read. -/
def device_candidate (dev : BusDevice) (desc : DeviceDescriptor) : Candidate :=
  let serial := read_usb_serial dev desc
  let c : Candidate :=
    { transport := .usbDevice desc.vendor_id desc.product_id serial,
      make_model := none, serial := serial,
      vid := some (toHex4 desc.vendor_id), pid := some (toHex4 desc.product_id),
      confidence := 80,
      notes := ["libusb: device exposes USB printer class interface (0x07)"] }
  match read_usb_strings dev desc with
  | none => c
  | some (mfg, prod) =>
    let mm := Dayroll.strTrim (mfg ++ " " ++ prod)
    if mm.data.isEmpty then c
    else { c with make_model := some mm, confidence := max c.confidence 85 }

/-- From `macos.rs` lines 105-148: `discover_usb_printer_class` over the enumerated
device list: the `?` on `device_descriptor()` aborts the scan, a non-printer
device is skipped, a printer device contributes `device_candidate`. -/
def discover_usb_printer_class : List BusDevice → Except String (List Candidate)
  | [] => .ok []
  | dev :: rest =>
    match dev.device_descriptor with
    | .error e => .error e
    | .ok desc =>
      if device_has_printer_interface dev then
        match discover_usb_printer_class rest with
        | .error e => .error e
        | .ok out => .ok (device_candidate dev desc :: out)
      else
        discover_usb_printer_class rest

/-- The per-device contribution of the USB bus scan, as an `Option`: `none` for a
device whose descriptor read failed (the scan aborts there) or that exposes no
printer-class interface. -/
def bus_candidate (dev : BusDevice) : Option Candidate :=
  match dev.device_descriptor with
  | .error _ => none
  | .ok desc => if device_has_printer_interface dev then some (device_candidate dev desc) else none

/-- The device environment a macOS discovery pass reads: the result of
`serialport::available_ports()` and of the `rusb` context/device enumeration
(each an `Except` because an enumeration-level failure aborts the pass). -/
structure MacEnv where
  ports : Except String (List SerialPortInfo)
  devices : Except String (List BusDevice)

/-- From `macos.rs` lines 7-11: `struct MacDiscovery`. -/
structure MacDiscovery where
  include_serial : Bool
  include_usb : Bool
deriving DecidableEq

/-- Constructor `MacDiscovery::new` (both flags on). -/
def MacDiscovery.new : MacDiscovery := { include_serial := true, include_usb := true }

/-- The final `sort_by(|a, b| b.confidence.cmp(&a.confidence))` ordering. -/
def conf_desc_le (a b : Candidate) : Prop := b.confidence ≤ a.confidence

instance : DecidableRel conf_desc_le := fun a b =>
  inferInstanceAs (Decidable (b.confidence ≤ a.confidence))

/-- From `macos.rs` lines 21-35: `MacDiscovery::discover`: serial candidates, then USB
bus candidates, sorted by confidence descending (stable, embedded as
`insertionSort`); the enumeration-level failure of either scanner propagates. -/
def MacDiscovery.discover (self : MacDiscovery) (env : MacEnv) :
    Except String (List Candidate) :=
  let serialPart : Except String (List Candidate) :=
    if self.include_serial then
      match env.ports with
      | .error e => .error e
      | .ok ps => .ok (discover_serial_ports ps)
    else .ok []
  let usbPart : Except String (List Candidate) :=
    if self.include_usb then
      match env.devices with
      | .error e => .error e
      | .ok ds => discover_usb_printer_class ds
    else .ok []
  match serialPart with
  | .error e => .error e
  | .ok s =>
    match usbPart with
    | .error e => .error e
    | .ok u => .ok ((s ++ u).insertionSort conf_desc_le)

end Mac

/-! ## Order lemmas for the sort relations -/

theorem charsLe_refl : ∀ l : List Char, charsLe l l = true
  | [] => rfl
  | a :: as => by simp [charsLe, charsLe_refl as]

theorem charsLe_total : ∀ l₁ l₂ : List Char, charsLe l₁ l₂ = true ∨ charsLe l₂ l₁ = true
  | [], _ => .inl rfl
  | _ :: _, [] => .inr rfl
  | a :: as, b :: bs => by
    by_cases h : a = b
    · subst h
      simpa [charsLe] using charsLe_total as bs
    · rcases lt_or_gt_of_ne h with hlt | hgt
      · left; simp [charsLe, h, hlt]
      · right; simp [charsLe, Ne.symm h, hgt]

theorem charsLe_trans :
    ∀ {l₁ l₂ l₃ : List Char}, charsLe l₁ l₂ = true → charsLe l₂ l₃ = true →
      charsLe l₁ l₃ = true
  | [], _, _, _, _ => rfl
  | _ :: _, [], _, h₁, _ => by simp [charsLe] at h₁
  | _ :: _, _ :: _, [], _, h₂ => by simp [charsLe] at h₂
  | a :: as, b :: bs, c :: cs, h₁, h₂ => by
    by_cases hab : a = b
    · subst hab
      by_cases hbc : a = c
      · subst hbc
        simp only [charsLe, if_pos rfl] at h₁ h₂ ⊢
        exact charsLe_trans h₁ h₂
      · simpa [charsLe, hbc] using (by simpa [charsLe, hbc] using h₂ : a < c)
    · have hlt : a < b := by simpa [charsLe, hab] using h₁
      by_cases hbc : b = c
      · subst hbc
        have : a ≠ b := hab
        simp [charsLe, hab, hlt]
      · have hlt' : b < c := by simpa [charsLe, hbc] using h₂
        have hac : a < c := lt_trans hlt hlt'
        simp [charsLe, ne_of_lt hac, hac]

theorem charsLe_antisymm :
    ∀ {l₁ l₂ : List Char}, charsLe l₁ l₂ = true → charsLe l₂ l₁ = true → l₁ = l₂
  | [], [], _, _ => rfl
  | [], _ :: _, _, h₂ => by simp [charsLe] at h₂
  | _ :: _, [], h₁, _ => by simp [charsLe] at h₁
  | a :: as, b :: bs, h₁, h₂ => by
    by_cases hab : a = b
    · subst hab
      simp only [charsLe, if_pos rfl] at h₁ h₂
      exact congrArg (a :: ·) (charsLe_antisymm h₁ h₂)
    · have hlt : a < b := by simpa [charsLe, hab] using h₁
      have hlt' : b < a := by simpa [charsLe, Ne.symm hab] using h₂
      exact absurd hlt' (lt_asymm hlt)

instance : IsTrans Candidate path_le :=
  ⟨fun _ _ _ => charsLe_trans⟩

instance : IsTotal Candidate path_le :=
  ⟨fun a b => charsLe_total (path_key a).data (path_key b).data⟩

theorem path_le_refl (a : Candidate) : path_le a a := charsLe_refl _

/-- `path_le` only looks at the key, so it holds between any two candidates with
equal keys. -/
theorem path_le_of_key_eq {a b : Candidate} (h : path_key a = path_key b) : path_le a b := by
  unfold path_le
  rw [h]
  exact charsLe_refl _

theorem path_key_eq_of_le_le {a b : Candidate} (h₁ : path_le a b) (h₂ : path_le b a) :
    path_key a = path_key b := by
  exact String.ext (charsLe_antisymm h₁ h₂)

instance : IsTrans Candidate conf_desc_le :=
  ⟨fun _ _ _ h₁ h₂ => le_trans h₂ h₁⟩

instance : IsTotal Candidate conf_desc_le :=
  ⟨fun a b => (Nat.le_total b.confidence a.confidence).imp id id⟩

instance : IsTrans Mac.Candidate Mac.conf_desc_le :=
  ⟨fun _ _ _ h₁ h₂ => le_trans h₂ h₁⟩

instance : IsTotal Mac.Candidate Mac.conf_desc_le :=
  ⟨fun a b => (Nat.le_total b.confidence a.confidence).imp id id⟩

/-! ## Basic facts about the candidate model -/

/-- Both `Transport` variants carry a device-node path, so `transport_path` always
returns it: `some (path_key c)`. -/
theorem transport_path_eq_some (c : Candidate) : c.transport_path = some (path_key c) := by
  rcases c with ⟨t, _, _, _, _, _, _⟩
  cases t <;> rfl

/-- The `dedup_by` comparison `a.transport_path() == b.transport_path()` is exactly
equality of the sort keys. -/
theorem dedup_pred_iff (a b : Candidate) :
    (a.transport_path == b.transport_path) = true ↔ path_key a = path_key b := by
  rw [transport_path_eq_some a, transport_path_eq_some b]
  simp

/-! ## Confidence accounting in the enrichment steps -/

theorem apply_make_model_confidence (props : List (String × String)) (c : Candidate) :
    (apply_make_model props c).confidence = c.confidence ∨
      (apply_make_model props c).confidence = max c.confidence 55 := by
  unfold apply_make_model
  dsimp only
  split_ifs <;> first | exact .inl rfl | exact .inr rfl

theorem apply_make_model_notes (props : List (String × String)) (c : Candidate) :
    (apply_make_model props c).notes = c.notes := by
  unfold apply_make_model
  dsimp only
  split_ifs <;> rfl

theorem apply_serial_ids_confidence (props : List (String × String)) (c : Candidate) :
    (apply_serial_ids props c).confidence = c.confidence := by
  unfold apply_serial_ids
  dsimp only
  split_ifs <;> rfl

theorem apply_interfaces_confidence (props : List (String × String)) (c : Candidate) :
    (apply_interfaces props c).confidence = c.confidence ∨
      (apply_interfaces props c).confidence = max c.confidence 90 := by
  unfold apply_interfaces
  split
  · exact .inl rfl
  · split
    · exact .inr rfl
    · exact .inl rfl

theorem apply_keyword_confidence (kws : List String) (c : Candidate) :
    (apply_keyword kws c).confidence = c.confidence ∨
      (apply_keyword kws c).confidence = max c.confidence 70 := by
  unfold apply_keyword
  split
  · exact .inl rfl
  · split
    · exact .inl rfl
    · exact .inr rfl

/-- Every confidence update inside `enrich_with_udev` is a `max` with a floor:
enrichment never lowers the confidence of a candidate. -/
theorem enrich_one_confidence_mono (devmap : List (String × List (String × String)))
    (c : Candidate) : c.confidence ≤ (enrich_one devmap c).confidence := by
  unfold enrich_one
  split
  · exact le_refl _
  · split
    · exact le_refl _
    · rename_i devnode _ props _
      have h₁ := apply_make_model_confidence props c
      have h₂ := apply_serial_ids_confidence props (apply_make_model props c)
      have h₃ := apply_interfaces_confidence props (apply_serial_ids props (apply_make_model props c))
      have h₄ := apply_keyword_confidence printer_keywords
        (apply_interfaces props (apply_serial_ids props (apply_make_model props c)))
      omega

/-- The floors used by `enrich_with_udev` are 55, 90 and 70, so enrichment can
raise a confidence at most to `max` of itself and 90. -/
theorem enrich_one_confidence_ub (devmap : List (String × List (String × String)))
    (c : Candidate) : (enrich_one devmap c).confidence ≤ max c.confidence 90 := by
  unfold enrich_one
  split
  · exact le_max_left _ _
  · split
    · exact le_max_left _ _
    · rename_i devnode _ props _
      have h₁ := apply_make_model_confidence props c
      have h₂ := apply_serial_ids_confidence props (apply_make_model props c)
      have h₃ := apply_interfaces_confidence props (apply_serial_ids props (apply_make_model props c))
      have h₄ := apply_keyword_confidence printer_keywords
        (apply_interfaces props (apply_serial_ids props (apply_make_model props c)))
      omega

/-! ## Membership through fusion -/

theorem dedup_go_subset : ∀ {l : List Candidate} {a y : Candidate},
    y ∈ dedup_go a l → y ∈ l
  | [], _, _, h => by simp [dedup_go] at h
  | b :: rest, a, y, h => by
    unfold dedup_go at h
    split at h
    · exact List.mem_cons_of_mem _ (dedup_go_subset h)
    · rcases List.mem_cons.mp h with rfl | h
      · exact List.mem_cons_self _ _
      · exact List.mem_cons_of_mem _ (dedup_go_subset h)

theorem dedup_consec_subset {l : List Candidate} {y : Candidate}
    (h : y ∈ dedup_consec l) : y ∈ l := by
  cases l with
  | nil => simp [dedup_consec] at h
  | cons a rest =>
    rcases List.mem_cons.mp h with rfl | h
    · exact List.mem_cons_self _ _
    · exact List.mem_cons_of_mem _ (dedup_go_subset h)

/-- Everything the fusion stage outputs was one of its input candidates. -/
theorem linux_fuse_subset {cands : List Candidate} {c : Candidate}
    (h : c ∈ linux_fuse cands) : c ∈ cands := by
  unfold linux_fuse at h
  rw [List.mem_insertionSort] at h
  have h := dedup_consec_subset (l := cands.insertionSort path_le) h
  rwa [List.mem_insertionSort] at h

/-- The scanners only produce confidences 80 (printer-class nodes) and 40 (serial
nodes). -/
theorem linux_raw_confidence (self : LinuxDiscovery) (env : LinuxEnv) {c : Candidate}
    (h : c ∈ linux_raw self env) : c.confidence = 80 ∨ c.confidence = 40 := by
  unfold linux_raw scan_usb_lp_nodes scan_serial_nodes at h
  rcases List.mem_append.mp h with h | h
  · rcases List.mem_map.mp h with ⟨p, _, rfl⟩
    exact .inl rfl
  · split at h
    · rcases List.mem_append.mp h with h | h <;> rcases List.mem_map.mp h with ⟨p, _, rfl⟩ <;>
        exact .inr rfl
    · simp at h

/-! ## Confidence accounting in the macOS scanners -/

/-- A macOS serial-port candidate ends at confidence 35, 60 or 70: never above 70. -/
theorem serial_port_candidate_confidence_le (p : Mac.SerialPortInfo) :
    (Mac.serial_port_candidate p).confidence ≤ 70 := by
  unfold Mac.serial_port_candidate
  dsimp only
  repeat' split
  all_goals (dsimp only; omega)

/-- A macOS USB bus candidate ends at confidence 80 or 85: never above 85. -/
theorem device_candidate_confidence_le (dev : Mac.BusDevice) (desc : Mac.DeviceDescriptor) :
    (Mac.device_candidate dev desc).confidence ≤ 85 := by
  unfold Mac.device_candidate
  dsimp only
  repeat' split
  all_goals (dsimp only; omega)

/-- Every candidate a successful USB bus scan returns is a `device_candidate`
(hence has confidence at most 85). -/
theorem discover_usb_mem_confidence :
    ∀ {devs : List Mac.BusDevice} {out : List Mac.Candidate},
      Mac.discover_usb_printer_class devs = .ok out → ∀ c ∈ out, c.confidence ≤ 85
  | [], out, h => by
    unfold Mac.discover_usb_printer_class at h
    cases h
    intro c hc
    simp at hc
  | dev :: rest, out, h => by
    intro c hc
    unfold Mac.discover_usb_printer_class at h
    split at h
    · exact absurd h (by simp)
    · rename_i desc hdesc
      split at h
      · split at h
        · exact absurd h (by simp)
        · rename_i u hrec
          cases h
          rcases List.mem_cons.mp hc with rfl | hc
          · exact device_candidate_confidence_le dev desc
          · exact discover_usb_mem_confidence hrec c hc
      · exact discover_usb_mem_confidence h c hc

/-- A successful macOS discovery pass is the confidence sort of a list of scanner
candidates, each of confidence at most 85. -/
theorem mac_discover_shape {self : Mac.MacDiscovery} {env : Mac.MacEnv}
    {out : List Mac.Candidate} (h : self.discover env = .ok out) :
    ∃ l : List Mac.Candidate,
      out = l.insertionSort Mac.conf_desc_le ∧ ∀ c ∈ l, c.confidence ≤ 85 := by
  have serial_bound : ∀ (ps : List Mac.SerialPortInfo) (c : Mac.Candidate),
      c ∈ Mac.discover_serial_ports ps → c.confidence ≤ 85 := by
    intro ps c hc
    rcases List.mem_map.mp hc with ⟨p, _, rfl⟩
    exact le_trans (serial_port_candidate_confidence_le p) (by omega)
  unfold Mac.MacDiscovery.discover at h
  dsimp only at h
  split at h
  · exact absurd h (by simp)
  · rename_i s hser
    split at h
    · exact absurd h (by simp)
    · rename_i u husb
      cases h
      refine ⟨s ++ u, rfl, ?_⟩
      intro c hc
      rcases List.mem_append.mp hc with hc | hc
      · split at hser
        · split at hser
          · exact absurd hser (by simp)
          · rename_i ps hps
            cases hser
            exact serial_bound ps c hc
        · cases hser
          simp at hc
      · split at husb
        · split at husb
          · exact absurd husb (by simp)
          · exact discover_usb_mem_confidence husb c hc
        · cases husb
          simp at hc

/-! ## The dedup walk keeps the first candidate of every key group -/

/-- Helper for re-rooting the retained-element walk: dropping the second element of
a sorted list keeps it sorted with the same head. -/
theorem pairwise_cons_of_cons_cons {a b : Candidate} {rest : List Candidate}
    (hp : List.Pairwise path_le (a :: b :: rest)) :
    List.Pairwise path_le (a :: rest) := by
  rcases List.pairwise_cons.mp hp with ⟨hab, hrest⟩
  rcases List.pairwise_cons.mp hrest with ⟨_, hrest'⟩
  exact List.pairwise_cons.mpr ⟨fun x hx => hab x (List.mem_cons_of_mem _ hx), hrest'⟩

/-- On a path-sorted tail, every survivor of the dedup walk has a key strictly
after the key of the retained element: `path_le` holds and the keys differ. -/
theorem dedup_go_key_lt :
    ∀ {l : List Candidate} {a : Candidate}, List.Pairwise path_le (a :: l) →
      ∀ y ∈ dedup_go a l, path_le a y ∧ path_key a ≠ path_key y
  | [], _, _, y, hy => by simp [dedup_go] at hy
  | b :: rest, a, hp, y, hy => by
    have hab := (List.pairwise_cons.mp hp).1
    have hrest := (List.pairwise_cons.mp hp).2
    unfold dedup_go at hy
    split at hy
    · exact dedup_go_key_lt (pairwise_cons_of_cons_cons hp) y hy
    · rename_i hne
      have hk : path_key a ≠ path_key b := fun h => hne ((dedup_pred_iff a b).mpr h)
      rcases List.mem_cons.mp hy with rfl | hy
      · exact ⟨hab y (List.mem_cons_self _ _), hk⟩
      · have h2 := dedup_go_key_lt hrest y hy
        have hb := hab b (List.mem_cons_self _ _)
        refine ⟨charsLe_trans hb h2.1, fun h => ?_⟩
        have hba : path_le b a := by
          have := h2.1
          unfold path_le at this ⊢
          rwa [← h] at this
        exact hk (path_key_eq_of_le_le hb hba)

/-- The survivors of the dedup walk are pairwise strictly increasing in key. -/
theorem dedup_go_pairwise :
    ∀ {l : List Candidate} {a : Candidate}, List.Pairwise path_le (a :: l) →
      List.Pairwise (fun x y => path_le x y ∧ path_key x ≠ path_key y) (dedup_go a l)
  | [], _, _ => by simp [dedup_go]
  | b :: rest, a, hp => by
    have hrest := (List.pairwise_cons.mp hp).2
    unfold dedup_go
    split
    · exact dedup_go_pairwise (pairwise_cons_of_cons_cons hp)
    · exact List.pairwise_cons.mpr
        ⟨fun y hy => dedup_go_key_lt hrest y hy, dedup_go_pairwise hrest⟩

/-- On a path-sorted list, dedup leaves pairwise distinct keys. -/
theorem dedup_consec_pairwise {s : List Candidate} (hs : List.Pairwise path_le s) :
    List.Pairwise (fun x y => path_key x ≠ path_key y) (dedup_consec s) := by
  cases s with
  | nil => simp [dedup_consec]
  | cons a l =>
    unfold dedup_consec
    exact List.pairwise_cons.mpr
      ⟨fun y hy => (dedup_go_key_lt hs y hy).2,
       (dedup_go_pairwise hs).imp (fun h => h.2)⟩

/-- Lemma: `find?` with the key predicate skips a head with a different key. -/
theorem find?_cons_neg_key {b y : Candidate} {rest : List Candidate}
    (h : path_key b ≠ path_key y) :
    (b :: rest).find? (fun c => path_key c == path_key y) =
      rest.find? (fun c => path_key c == path_key y) := by
  have hb : (path_key b == path_key y) = false := beq_eq_false_iff_ne.mpr h
  simp [List.find?_cons, hb]

/-- Lemma: `find?` with the key predicate returns a head with the sought key. -/
theorem find?_cons_pos_key {b : Candidate} {rest : List Candidate} :
    (b :: rest).find? (fun c => path_key c == path_key b) = some b := by
  simp [List.find?_cons]

/-- On a path-sorted tail, each survivor of the dedup walk is the first element of
that tail carrying its key. -/
theorem dedup_go_find? :
    ∀ {l : List Candidate} {a : Candidate}, List.Pairwise path_le (a :: l) →
      ∀ y ∈ dedup_go a l,
        l.find? (fun c => path_key c == path_key y) = some y
  | [], _, _, y, hy => by simp [dedup_go] at hy
  | b :: rest, a, hp, y, hy => by
    have hrest := (List.pairwise_cons.mp hp).2
    unfold dedup_go at hy
    split at hy
    · rename_i heq
      have hk : path_key a = path_key b := (dedup_pred_iff a b).mp heq
      have hp' := pairwise_cons_of_cons_cons hp
      have hay := (dedup_go_key_lt hp' y hy).2
      rw [find?_cons_neg_key (hk ▸ hay)]
      exact dedup_go_find? hp' y hy
    · rename_i hne
      rcases List.mem_cons.mp hy with rfl | hy
      · exact find?_cons_pos_key
      · rw [find?_cons_neg_key (dedup_go_key_lt hrest y hy).2]
        exact dedup_go_find? hrest y hy

/-- On a path-sorted list, each dedup output is the first element of the list
carrying its key. -/
theorem dedup_consec_find? {s : List Candidate} (hs : List.Pairwise path_le s) :
    ∀ y ∈ dedup_consec s, s.find? (fun c => path_key c == path_key y) = some y := by
  cases s with
  | nil => simp [dedup_consec]
  | cons a l =>
    intro y hy
    rcases List.mem_cons.mp hy with rfl | hy
    · exact find?_cons_pos_key
    · rw [find?_cons_neg_key (dedup_go_key_lt hs y hy).2]
      exact dedup_go_find? hs y hy

/-- The dedup walk covers every key of its input. -/
theorem dedup_go_cover :
    ∀ {l : List Candidate} (a : Candidate), ∀ x ∈ l,
      ∃ y ∈ a :: dedup_go a l, path_key y = path_key x
  | [], _, x, hx => by simp at hx
  | b :: rest, a, x, hx => by
    unfold dedup_go
    split
    · rename_i heq
      have hk : path_key a = path_key b := (dedup_pred_iff a b).mp heq
      rcases List.mem_cons.mp hx with rfl | hx
      · exact ⟨a, List.mem_cons_self _ _, hk⟩
      · exact dedup_go_cover a x hx
    · rcases List.mem_cons.mp hx with rfl | hx
      · exact ⟨x, List.mem_cons_of_mem _ (List.mem_cons_self _ _), rfl⟩
      · rcases dedup_go_cover b x hx with ⟨y, hy, hk⟩
        rcases List.mem_cons.mp hy with rfl | hy
        · exact ⟨y, List.mem_cons_of_mem _ (List.mem_cons_self _ _), hk⟩
        · exact ⟨y, List.mem_cons_of_mem _ (List.mem_cons_of_mem _ hy), hk⟩

/-- Dedup covers every key of its input. -/
theorem dedup_consec_cover {s : List Candidate} :
    ∀ x ∈ s, ∃ y ∈ dedup_consec s, path_key y = path_key x := by
  cases s with
  | nil => simp
  | cons a l =>
    intro x hx
    rcases List.mem_cons.mp hx with rfl | hx
    · exact ⟨x, List.mem_cons_self _ _, rfl⟩
    · exact dedup_go_cover a x hx

/-- Stability of the path sort, stated per key class: sorting does not reorder the
candidates sharing one dedup key. -/
theorem insertionSort_filter_key (cands : List Candidate) (k : String) :
    (cands.insertionSort path_le).filter (fun c => path_key c == k) =
      cands.filter (fun c => path_key c == k) := by
  have hpair : (cands.filter (fun c => path_key c == k)).Pairwise path_le := by
    apply List.pairwise_of_forall_mem_list
    intro a ha b hb
    have hka : path_key a = k := by simpa using (List.mem_filter.mp ha).2
    have hkb : path_key b = k := by simpa using (List.mem_filter.mp hb).2
    exact path_le_of_key_eq (hka.trans hkb.symm)
  have hsub : List.Sublist (cands.filter (fun c => path_key c == k))
      (cands.insertionSort path_le) :=
    List.sublist_insertionSort hpair (List.filter_sublist cands)
  have hself : (cands.filter (fun c => path_key c == k)).filter (fun c => path_key c == k) =
      cands.filter (fun c => path_key c == k) :=
    List.filter_eq_self.mpr (fun a ha => (List.mem_filter.mp ha).2)
  have hsub' : List.Sublist (cands.filter (fun c => path_key c == k))
      ((cands.insertionSort path_le).filter (fun c => path_key c == k)) := by
    rw [← hself]
    exact hsub.filter _
  have hperm : List.Perm ((cands.insertionSort path_le).filter (fun c => path_key c == k))
      (cands.filter (fun c => path_key c == k)) :=
    (List.perm_insertionSort path_le cands).filter _
  exact (hsub'.eq_of_length hperm.length_eq.symm).symm

/-- The path sort does not change which candidate is the first with a given key. -/
theorem insertionSort_find?_key (cands : List Candidate) (k : String) :
    (cands.insertionSort path_le).find? (fun c => path_key c == k) =
      cands.find? (fun c => path_key c == k) := by
  rw [← List.filter_head? (fun c => path_key c == k) (cands.insertionSort path_le),
    insertionSort_filter_key, List.filter_head?]

/-! ## Claim theorems -/

/-- C2 (supporting theorem for the code bug): in `model.rs` as committed, every
`Transport` value is one of the two device-node-path variants; no
(vendor-id, product-id, serial) tuple variant exists, even though
`macos.rs` line 122 constructs `Transport::UsbDevice { vid, pid, serial }`. -/
theorem c2_transport_has_no_tuple_variant :
    ∀ t : Transport, (∃ p, t = Transport.usbLp p) ∨ (∃ p, t = Transport.serial p) := by
  intro t
  cases t with
  | usbLp p => exact .inl ⟨p, rfl⟩
  | serial p => exact .inr ⟨p, rfl⟩

/-- C10: every constructible candidate has `transport_path = some`, so the
`unwrap_or("")` fallback in `dedup_by_transport_path` never supplies the empty
string: the `getD ""` always returns the carried path. -/
theorem c10_transport_path_always_some :
    ∀ c : Candidate, ∃ p, c.transport_path = some p ∧ (c.transport_path).getD "" = p :=
  fun c => ⟨path_key c, transport_path_eq_some c, by rw [transport_path_eq_some c]; rfl⟩

/-- C8: enrichment is monotonic in confidence: pointwise along the candidate list,
the confidence after `enrich_with_udev` is at least the confidence before. -/
theorem c8_enrichment_monotone :
    ∀ (devmap : List (String × List (String × String))) (cands : List Candidate),
      List.Forall₂ (fun before after => before.confidence ≤ after.confidence)
        cands (enrich_with_udev devmap cands) := by
  intro devmap cands
  induction cands with
  | nil => exact .nil
  | cons c rest ih => exact List.Forall₂.cons (enrich_one_confidence_mono devmap c) ih

/-- C9: on both platform backends, the confidence of every returned candidate lies in
[0, 100] (scanner baselines are 35/40/80 and every enrichment floor is at most
90, applied through `max`). -/
theorem c9_confidence_in_range :
    (∀ (self : LinuxDiscovery) (env : LinuxEnv), ∀ c ∈ self.discover env,
        0 ≤ c.confidence ∧ c.confidence ≤ 100) ∧
    (∀ (self : Mac.MacDiscovery) (env : Mac.MacEnv) (out : List Mac.Candidate),
        self.discover env = .ok out → ∀ c ∈ out,
        0 ≤ c.confidence ∧ c.confidence ≤ 100) := by
  constructor
  · intro self env c hc
    refine ⟨Nat.zero_le _, ?_⟩
    unfold LinuxDiscovery.discover at hc
    dsimp only at hc
    have hc' := linux_fuse_subset hc
    split at hc'
    · rcases List.mem_map.mp hc' with ⟨c0, hc0, rfl⟩
      have h1 := enrich_one_confidence_ub env.devmap c0
      rcases linux_raw_confidence self env hc0 with h | h <;> omega
    · rcases linux_raw_confidence self env hc' with h | h <;> omega
  · intro self env out h c hc
    refine ⟨Nat.zero_le _, ?_⟩
    obtain ⟨l, rfl, hb⟩ := mac_discover_shape h
    rw [List.mem_insertionSort] at hc
    exact le_trans (hb c hc) (by omega)

/-- Witness for C9 at concrete environments: one Linux printer-class node, one
macOS non-USB serial port. -/
theorem c9_confidence_in_range_witness :
    (0 ≤ ({ transport := .usbLp "/dev/usb/lp0", make_model := none, serial := none,
            vid := none, pid := none, confidence := 80,
            notes := ["Found /dev/usb/lp* node (USB printer class)"] } : Candidate).confidence ∧
      ({ transport := .usbLp "/dev/usb/lp0", make_model := none, serial := none,
         vid := none, pid := none, confidence := 80,
         notes := ["Found /dev/usb/lp* node (USB printer class)"] } : Candidate).confidence ≤ 100) ∧
    (0 ≤ ({ transport := .serial "/dev/cu.x", make_model := none, serial := none,
            vid := none, pid := none, confidence := 35,
            notes := ["serialport: /dev/cu.x"] } : Mac.Candidate).confidence ∧
      ({ transport := .serial "/dev/cu.x", make_model := none, serial := none,
         vid := none, pid := none, confidence := 35,
         notes := ["serialport: /dev/cu.x"] } : Mac.Candidate).confidence ≤ 100) :=
  ⟨c9_confidence_in_range.1 LinuxDiscovery.new
      { usb_lp_nodes := ["/dev/usb/lp0"], tty_usb_nodes := [], tty_acm_nodes := [],
        devmap := [] } _ (by decide),
   c9_confidence_in_range.2 Mac.MacDiscovery.new
      { ports := .ok [{ port_name := "/dev/cu.x", port_type := .other }], devices := .ok [] }
      [{ transport := .serial "/dev/cu.x", make_model := none, serial := none,
         vid := none, pid := none, confidence := 35,
         notes := ["serialport: /dev/cu.x"] }] (by rfl) _ (by decide)⟩

/-- C1 (amended): the fused output has exactly one candidate per dedup key —
pairwise distinct keys, every input key still represented — and the surviving
candidate is the first input candidate with its key, kept verbatim (its own
confidence, fields and notes; no group maximum, no note concatenation). -/
theorem c1_dedup_keeps_first (cands : List Candidate) :
    (linux_fuse cands).Pairwise (fun a b => path_key a ≠ path_key b) ∧
    (∀ c ∈ cands, ∃ d ∈ linux_fuse cands, path_key d = path_key c) ∧
    (∀ d ∈ linux_fuse cands,
      cands.find? (fun c => path_key c == path_key d) = some d) := by
  have hsorted : List.Pairwise path_le (cands.insertionSort path_le) :=
    List.sorted_insertionSort path_le cands
  have hsym : ∀ {x y : Candidate}, path_key x ≠ path_key y → path_key y ≠ path_key x :=
    fun hxy he => hxy he.symm
  refine ⟨?_, ?_, ?_⟩
  · have h := dedup_consec_pairwise hsorted
    have hperm := List.perm_insertionSort conf_desc_le (dedup_by_transport_path cands)
    exact (List.Perm.pairwise_iff hsym hperm).mpr h
  · intro c hc
    have hc' : c ∈ cands.insertionSort path_le := (List.mem_insertionSort path_le).mpr hc
    rcases dedup_consec_cover c hc' with ⟨y, hy, hk⟩
    exact ⟨y, (List.mem_insertionSort conf_desc_le).mpr hy, hk⟩
  · intro d hd
    have hd' : d ∈ dedup_consec (cands.insertionSort path_le) :=
      (List.mem_insertionSort conf_desc_le).mp hd
    have h1 := dedup_consec_find? hsorted d hd'
    rwa [insertionSort_find?_key cands (path_key d)] at h1

/-- Witness for C1 (amended) at a concrete two-candidate group: the first group
member is the one `find?` returns. -/
theorem c1_dedup_keeps_first_witness :
    ([(⟨.serial "/dev/p", none, none, none, none, 40, ["n1"]⟩ : Candidate),
      ⟨.usbLp "/dev/p", none, none, none, none, 90, ["n2"]⟩].find?
        (fun c => path_key c ==
          path_key (⟨.serial "/dev/p", none, none, none, none, 40, ["n1"]⟩ : Candidate))) =
      some ⟨.serial "/dev/p", none, none, none, none, 40, ["n1"]⟩ :=
  (c1_dedup_keeps_first
      [⟨.serial "/dev/p", none, none, none, none, 40, ["n1"]⟩,
       ⟨.usbLp "/dev/p", none, none, none, none, 90, ["n2"]⟩]).2.2
    ⟨.serial "/dev/p", none, none, none, none, 40, ["n1"]⟩ (by decide)

/-- C1 counterexample: two raw candidates share the dedup key `/dev/p` with
confidences 40 and 90 and one note each. The fused output keeps the first input
verbatim — confidence 40, its own single note — not the merge the spec describes (maximum
confidence 90 with both notes concatenated). -/
theorem c1_spec_counterexample :
    (let c1 : Candidate := ⟨.serial "/dev/p", none, none, none, none, 40, ["n1"]⟩
     let c2 : Candidate := ⟨.usbLp "/dev/p", none, none, none, none, 90, ["n2"]⟩
     c1.transport_path = c2.transport_path ∧
     linux_fuse [c1, c2] = [c1] ∧
     ¬ ∃ d ∈ linux_fuse [c1, c2],
        d.confidence = max c1.confidence c2.confidence ∧
          d.notes = c1.notes ++ c2.notes) := by decide

/-- C3 (amended): on both backends the returned list is sorted non-increasing by
confidence. The tie-order clause of the spec fails on Linux (see the counterexample):
dedup re-sorts by transport path before the stable confidence sort, so
equal-confidence candidates appear in path order, not raw scan order. -/
theorem c3_sorted_by_confidence :
    (∀ (self : LinuxDiscovery) (env : LinuxEnv),
        (self.discover env).Pairwise (fun a b => b.confidence ≤ a.confidence)) ∧
    (∀ (self : Mac.MacDiscovery) (env : Mac.MacEnv) (out : List Mac.Candidate),
        self.discover env = .ok out →
        out.Pairwise (fun a b => b.confidence ≤ a.confidence)) := by
  constructor
  · intro self env
    unfold LinuxDiscovery.discover linux_fuse
    dsimp only
    exact List.sorted_insertionSort conf_desc_le _
  · intro self env out h
    obtain ⟨l, rfl, _⟩ := mac_discover_shape h
    exact List.sorted_insertionSort Mac.conf_desc_le l

/-- Witness for C3 at a concrete macOS environment with one serial port. -/
theorem c3_sorted_by_confidence_witness :
    ([{ transport := .serial "/dev/cu.w", make_model := none, serial := none,
        vid := none, pid := none, confidence := 35,
        notes := ["serialport: /dev/cu.w"] }] : List Mac.Candidate).Pairwise
      (fun a b => b.confidence ≤ a.confidence) :=
  c3_sorted_by_confidence.2 Mac.MacDiscovery.new
    { ports := .ok [{ port_name := "/dev/cu.w", port_type := .other }], devices := .ok [] }
    _ (by rfl)

/-- C3 counterexample: with `/dev/ttyUSB0` and `/dev/ttyACM0` present, the raw
scan order is ttyUSB0 then ttyACM0, both at confidence 40, but the final Linux
output lists ttyACM0 first — the equal-confidence relative order is not the raw
order. -/
theorem c3_tie_order_counterexample :
    (let env : LinuxEnv := ⟨[], ["/dev/ttyUSB0"], ["/dev/ttyACM0"], []⟩
     let u : Candidate := ⟨.serial "/dev/ttyUSB0", none, none, none, none, 40,
       ["Found serial device node (/dev/ttyUSB*)"]⟩
     let a : Candidate := ⟨.serial "/dev/ttyACM0", none, none, none, none, 40,
       ["Found serial device node (/dev/ttyACM*)"]⟩
     linux_raw LinuxDiscovery.new env = [u, a] ∧
     u.confidence = a.confidence ∧
     LinuxDiscovery.new.discover env = [a, u] ∧
     [a, u] ≠ [u, a]) := by decide

/-- When every device descriptor reads successfully, the USB bus scan succeeds and
returns exactly the per-device contributions, in device order. -/
theorem discover_usb_ok (devs : List Mac.BusDevice)
    (h : ∀ d ∈ devs, ∃ x, d.device_descriptor = .ok x) :
    Mac.discover_usb_printer_class devs = .ok (devs.filterMap Mac.bus_candidate) := by
  induction devs with
  | nil => rfl
  | cons dev rest ih =>
    obtain ⟨desc, hd⟩ := h dev (List.mem_cons_self _ _)
    have ih' := ih (fun d hd' => h d (List.mem_cons_of_mem _ hd'))
    unfold Mac.discover_usb_printer_class
    cases hp : Mac.device_has_printer_interface dev <;>
      simp [Mac.bus_candidate, hd, hp, List.filterMap_cons, ih']

/-- C4: a per-device string-descriptor failure is localized. Whenever the bus
enumeration itself succeeds (every `device_descriptor()` read is `Ok`), the scan
returns a candidate for every printer-class device, and a device whose string
reads fail still contributes its candidate at the class-based confidence 80 with
no display name and no serial — the scan neither drops later devices nor aborts. -/
theorem c4_string_read_failure_localized (devs : List Mac.BusDevice)
    (h : ∀ d ∈ devs, ∃ x, d.device_descriptor = .ok x) :
    Mac.discover_usb_printer_class devs = .ok (devs.filterMap Mac.bus_candidate) ∧
    ∀ d ∈ devs, ∀ desc, d.device_descriptor = .ok desc →
      Mac.device_has_printer_interface d = true →
      Mac.read_usb_strings d desc = none →
      Mac.read_usb_serial d desc = none →
      Mac.bus_candidate d = some
        { transport := .usbDevice desc.vendor_id desc.product_id none,
          make_model := none, serial := none,
          vid := some (Mac.toHex4 desc.vendor_id),
          pid := some (Mac.toHex4 desc.product_id),
          confidence := 80,
          notes := ["libusb: device exposes USB printer class interface (0x07)"] } := by
  refine ⟨discover_usb_ok devs h, ?_⟩
  intro d _ desc hdesc hp hstr hser
  simp [Mac.bus_candidate, hdesc, hp, Mac.device_candidate, hstr, hser]

/-- A printer-class device whose handle cannot be opened: every string-descriptor
read fails. -/
def usb_dev_timeout_example : Mac.BusDevice :=
  { device_descriptor := .ok
      { vendor_id := 0x04b8, product_id := 0x0202,
        manufacturer_string_index := some 1, product_string_index := some 2,
        serial_number_string_index := some 3 },
    active_config_descriptor := some { interfaces := [{ descriptors := [{ class_code := 0x07 }] }] },
    open? := none }

/-- A printer-class device whose string descriptors all read successfully. -/
def usb_dev_strings_example : Mac.BusDevice :=
  { device_descriptor := .ok
      { vendor_id := 0x0519, product_id := 0x0001,
        manufacturer_string_index := some 1, product_string_index := some 2,
        serial_number_string_index := some 3 },
    active_config_descriptor := some { interfaces := [{ descriptors := [{ class_code := 0x07 }] }] },
    open? := some { read_string_descriptor_ascii := fun i =>
      if i = 1 then some "Star" else if i = 2 then some "TSP100" else some "SN42" } }

/-- Witness for C4: the device with failing string reads still yields its
confidence-80 candidate and the scan also returns the following device. -/
theorem c4_string_read_failure_localized_witness :
    Mac.discover_usb_printer_class [usb_dev_timeout_example, usb_dev_strings_example] =
      .ok ([usb_dev_timeout_example, usb_dev_strings_example].filterMap Mac.bus_candidate) ∧
    Mac.bus_candidate usb_dev_timeout_example = some
      { transport := .usbDevice 0x04b8 0x0202 none,
        make_model := none, serial := none,
        vid := some (Mac.toHex4 0x04b8), pid := some (Mac.toHex4 0x0202),
        confidence := 80,
        notes := ["libusb: device exposes USB printer class interface (0x07)"] } ∧
    ([usb_dev_timeout_example, usb_dev_strings_example].filterMap Mac.bus_candidate).length = 2 := by
  have hall : ∀ d ∈ [usb_dev_timeout_example, usb_dev_strings_example],
      ∃ x, d.device_descriptor = .ok x := by
    intro d hd
    rcases List.mem_cons.mp hd with rfl | hd
    · exact ⟨_, rfl⟩
    · rcases List.mem_cons.mp hd with rfl | hd
      · exact ⟨_, rfl⟩
      · simp at hd
  have h := c4_string_read_failure_localized
    [usb_dev_timeout_example, usb_dev_strings_example] hall
  refine ⟨h.1, ?_, by rfl⟩
  exact h.2 usb_dev_timeout_example (List.mem_cons_self _ _) _ rfl rfl rfl rfl

/-- C5 (amended): on macOS, a USB-backed serial candidate with any resolved
display name has confidence at least 60 after the scan and carries the
explanatory note. On Linux, resolving a display name through udev raises
confidence only to `max(current, 55)` — not 60 — and appends no note. -/
theorem c5_name_floors :
    (∀ p : Mac.SerialPortInfo,
        ((Mac.serial_port_candidate p).make_model).isSome = true →
        60 ≤ (Mac.serial_port_candidate p).confidence ∧
        "serialport: USB-backed serial device" ∈ (Mac.serial_port_candidate p).notes) ∧
    (∀ (props : List (String × String)) (c : Candidate),
        (apply_make_model props c).notes = c.notes) ∧
    (∀ (props : List (String × String)) (c : Candidate),
        c.make_model = none → ((apply_make_model props c).make_model).isSome = true →
        (apply_make_model props c).confidence = max c.confidence 55) := by
  refine ⟨?_, apply_make_model_notes, ?_⟩
  · intro p h
    unfold Mac.serial_port_candidate at h ⊢
    dsimp only at h ⊢
    cases hpt : p.port_type with
    | other =>
      simp only [hpt] at h
      simp at h
    | usbPort info =>
      simp only [hpt] at h ⊢
      by_cases hmm : (strTrim ((info.manufacturer.getD "") ++ " " ++
          (info.product.getD ""))).data.isEmpty = true
      · rw [if_pos hmm] at h
        dsimp only at h
        simp at h
      · rw [if_neg hmm] at h ⊢
        dsimp only at h ⊢
        rcases hf : Mac.mac_keywords.find? (fun kw =>
            strContainsSub (strToLower (strTrim ((info.manufacturer.getD "") ++ " " ++
              (info.product.getD "")))) kw) with _ | kw <;>
          simp only [hf] at h ⊢
        · exact ⟨by omega, by simp⟩
        · exact ⟨by omega, by simp⟩
  · intro props c h0 h
    unfold apply_make_model at h ⊢
    dsimp only at h ⊢
    by_cases hcond : (c.make_model.isNone &&
        (((prop_get props "ID_VENDOR_FROM_DATABASE").or (prop_get props "ID_VENDOR")).isSome ||
          ((prop_get props "ID_MODEL_FROM_DATABASE").or (prop_get props "ID_MODEL")).isSome)) = true
    · rw [if_pos hcond] at h ⊢
      by_cases hmm : (strTrim ((((prop_get props "ID_VENDOR_FROM_DATABASE").or
            (prop_get props "ID_VENDOR")).getD "") ++ " " ++
          (((prop_get props "ID_MODEL_FROM_DATABASE").or
            (prop_get props "ID_MODEL")).getD ""))).data.isEmpty = true
      · rw [if_pos hmm] at h
        rw [h0] at h
        simp at h
      · rw [if_neg hmm]
    · rw [if_neg hcond] at h
      rw [h0] at h
      simp at h

/-- Witness for C5: a USB-backed macOS serial port resolving the name `FTDI USB`
reaches confidence at least 60 with the note; a Linux candidate resolving a name
from udev gets exactly `max 40 55`. -/
theorem c5_name_floors_witness :
    (60 ≤ (Mac.serial_port_candidate
        { port_name := "/dev/cu.usbserial-0001",
          port_type := .usbPort { vid := 0x0403, pid := 0x6001, serial_number := none,
                                  manufacturer := some "FTDI", product := some "USB" } }).confidence ∧
      "serialport: USB-backed serial device" ∈ (Mac.serial_port_candidate
        { port_name := "/dev/cu.usbserial-0001",
          port_type := .usbPort { vid := 0x0403, pid := 0x6001, serial_number := none,
                                  manufacturer := some "FTDI", product := some "USB" } }).notes) ∧
    (apply_make_model [("ID_VENDOR", "FTDI")]
        ⟨.serial "/dev/ttyUSB0", none, none, none, none, 40,
          ["Found serial device node (/dev/ttyUSB*)"]⟩).confidence = max 40 55 :=
  ⟨c5_name_floors.1
      { port_name := "/dev/cu.usbserial-0001",
        port_type := .usbPort { vid := 0x0403, pid := 0x6001, serial_number := none,
                                manufacturer := some "FTDI", product := some "USB" } }
      (by decide),
   c5_name_floors.2.2 [("ID_VENDOR", "FTDI")]
      ⟨.serial "/dev/ttyUSB0", none, none, none, none, 40,
        ["Found serial device node (/dev/ttyUSB*)"]⟩ rfl (by decide)⟩

/-- C5 counterexample: a USB-backed Linux serial candidate whose display name
resolves to `FTDI` ends enrichment at confidence 55, below the claimed floor of
60, and with its notes unchanged (no explanatory note appended). -/
theorem c5_linux_floor_counterexample :
    (let c : Candidate := ⟨.serial "/dev/ttyUSB0", none, none, none, none, 40,
       ["Found serial device node (/dev/ttyUSB*)"]⟩
     enrich_with_udev [("/dev/ttyUSB0", [("ID_VENDOR", "FTDI")])] [c] =
       [⟨.serial "/dev/ttyUSB0", some "FTDI", none, none, none, 55,
         ["Found serial device node (/dev/ttyUSB*)"]⟩] ∧
     ¬ 60 ≤ (⟨.serial "/dev/ttyUSB0", some "FTDI", none, none, none, 55,
         ["Found serial device node (/dev/ttyUSB*)"]⟩ : Candidate).confidence) := by decide

/-- C6 (amended): the keyword floor of 70 with an explanatory note holds on Linux
for the full ten-keyword set, but on macOS it applies only to USB-backed serial
candidates and only for the eight-keyword subset (`zjiang` and `xprinter` are
missing there; see the counterexample), and the macOS bus scan never applies it. -/
theorem c6_keyword_floors :
    (∀ (c : Candidate) (mm : String), c.make_model = some mm →
        (∃ kw ∈ printer_keywords, strContainsSub (strToLower mm) kw = true) →
        70 ≤ (apply_keyword printer_keywords c).confidence ∧
        ∃ kw ∈ printer_keywords,
          keyword_note kw ∈ (apply_keyword printer_keywords c).notes) ∧
    (∀ (p : Mac.SerialPortInfo) (mm : String),
        (Mac.serial_port_candidate p).make_model = some mm →
        (∃ kw ∈ Mac.mac_keywords, strContainsSub (strToLower mm) kw = true) →
        70 ≤ (Mac.serial_port_candidate p).confidence ∧
        ∃ kw ∈ Mac.mac_keywords,
          keyword_note kw ∈ (Mac.serial_port_candidate p).notes) := by
  constructor
  · intro c mm hmm hex
    unfold apply_keyword
    rw [hmm]
    have hsome : (printer_keywords.find? (fun kw =>
        strContainsSub (strToLower mm) kw)).isSome = true := by
      rw [List.find?_isSome]
      rcases hex with ⟨kw, hkw, hocc⟩
      exact ⟨kw, hkw, hocc⟩
    rcases ho : printer_keywords.find? (fun kw => strContainsSub (strToLower mm) kw)
      with _ | kw
    · rw [ho] at hsome; simp at hsome
    · simp only [ho]
      exact ⟨by omega, kw, List.mem_of_find?_eq_some ho, by simp⟩
  · intro p mm hmm hex
    unfold Mac.serial_port_candidate at hmm ⊢
    dsimp only at hmm ⊢
    cases hpt : p.port_type with
    | other =>
      simp only [hpt] at hmm
      simp at hmm
    | usbPort info =>
      simp only [hpt] at hmm ⊢
      by_cases he : (strTrim ((info.manufacturer.getD "") ++ " " ++
          (info.product.getD ""))).data.isEmpty = true
      · rw [if_pos he] at hmm
        simp at hmm
      · rw [if_neg he] at hmm ⊢
        dsimp only at hmm ⊢
        have hmm' : strTrim ((info.manufacturer.getD "") ++ " " ++
            (info.product.getD "")) = mm := by
          rcases hf : Mac.mac_keywords.find? (fun kw =>
              strContainsSub (strToLower (strTrim ((info.manufacturer.getD "") ++ " " ++
                (info.product.getD "")))) kw) with _ | kw <;>
            simp only [hf] at hmm <;> simpa using hmm
        rw [hmm']
        have hsome : (Mac.mac_keywords.find? (fun kw =>
            strContainsSub (strToLower mm) kw)).isSome = true := by
          rw [List.find?_isSome]
          rcases hex with ⟨kw, hkw, hocc⟩
          exact ⟨kw, hkw, hocc⟩
        rcases ho : Mac.mac_keywords.find? (fun kw => strContainsSub (strToLower mm) kw)
          with _ | kw
        · rw [ho] at hsome; simp at hsome
        · simp only [ho]
          exact ⟨by omega, kw, List.mem_of_find?_eq_some ho, by simp⟩

/-- Witness for C6: a Linux candidate whose resolved name contains `epson` is
floored to at least 70 by the keyword boost. -/
theorem c6_keyword_floors_witness :
    70 ≤ (apply_keyword printer_keywords
      ⟨.usbLp "/dev/usb/lp0", some "EPSON TM-T88", none, none, none, 80,
        ["Found /dev/usb/lp* node (USB printer class)"]⟩).confidence :=
  (c6_keyword_floors.1
    ⟨.usbLp "/dev/usb/lp0", some "EPSON TM-T88", none, none, none, 80,
      ["Found /dev/usb/lp* node (USB printer class)"]⟩
    "EPSON TM-T88" rfl ⟨"epson", by decide, by decide⟩).1

/-- C6 counterexample: on macOS, a USB-backed serial device named
`Xprinter XP58` — whose lowercased name contains the fixed-set keyword
`xprinter` — stays at confidence 60 with no keyword note: the macOS keyword list
omits `xprinter`, so the claimed floor of 70 is not applied on that backend. -/
theorem c6_mac_keyword_counterexample :
    (let p : Mac.SerialPortInfo :=
       { port_name := "/dev/cu.usbserial-1420",
         port_type := .usbPort { vid := 0x1a86, pid := 0x7523, serial_number := none,
                                 manufacturer := none, product := some "Xprinter XP58" } }
     (Mac.serial_port_candidate p).make_model = some "Xprinter XP58" ∧
     strContainsSub (strToLower "Xprinter XP58") "xprinter" = true ∧
     "xprinter" ∈ printer_keywords ∧
     (Mac.serial_port_candidate p).confidence = 60 ∧
     ¬ 70 ≤ (Mac.serial_port_candidate p).confidence ∧
     (Mac.serial_port_candidate p).notes =
       ["serialport: /dev/cu.usbserial-1420",
        "serialport: USB-backed serial device"]) := by decide

/-- C7: Scenario A. One `/dev/usb/lp0` class-node candidate (confidence 80); udev
reports model `TM-T20`, vendor `Epson`, and an interface list containing `0701`.
The final candidate has display name `Epson TM-T20`, confidence 90, and its notes
include both the class-node note and the interface-class note. -/
theorem c7_scenario_a :
    (let env : LinuxEnv :=
       { usb_lp_nodes := ["/dev/usb/lp0"], tty_usb_nodes := [], tty_acm_nodes := [],
         devmap := [("/dev/usb/lp0",
           [("ID_MODEL", "TM-T20"), ("ID_VENDOR", "Epson"),
            ("ID_USB_INTERFACES", ":0701:")])] }
     LinuxDiscovery.new.discover env =
       [{ transport := .usbLp "/dev/usb/lp0", make_model := some "Epson TM-T20",
          serial := none, vid := none, pid := none, confidence := 90,
          notes := ["Found /dev/usb/lp* node (USB printer class)", iface_note,
                    keyword_note "epson"] }] ∧
     "Found /dev/usb/lp* node (USB printer class)" ∈
       ({ transport := .usbLp "/dev/usb/lp0", make_model := some "Epson TM-T20",
          serial := none, vid := none, pid := none, confidence := 90,
          notes := ["Found /dev/usb/lp* node (USB printer class)", iface_note,
                    keyword_note "epson"] } : Candidate).notes ∧
     iface_note ∈
       ({ transport := .usbLp "/dev/usb/lp0", make_model := some "Epson TM-T20",
          serial := none, vid := none, pid := none, confidence := 90,
          notes := ["Found /dev/usb/lp* node (USB printer class)", iface_note,
                    keyword_note "epson"] } : Candidate).notes) := by decide

end Dayroll
